import Mathlib

/-
Verification development for the Rutelister RTF route-manifest extractor
(src/app.py).  The extraction pipeline is embedded shallowly: a character is
its Unicode codepoint (a Nat), a line is a list of codepoints, and every
Python regular-expression pass is translated into an explicit scanner that
follows the engine's leftmost-match / greedy / lazy backtracking behaviour.
Scanning passes whose recursion is not structural take an explicit fuel
argument; each scanning step consumes at least one input character, so fuel
equal to the input length makes the fueled function total and exact.
-/

namespace RutApp

set_option maxRecDepth 10000

/-- A text line: the list of Unicode codepoints of its characters. -/
abbrev Line := List Nat

/-- Codepoints of a Lean string literal, used to write concrete inputs. -/
def cp (s : String) : Line := s.data.map Char.toNat

/-- Unicode whitespace as recognised by Python str.strip and the re class \s. -/
def isSpaceCp (c : Nat) : Bool :=
  c = 32 || c = 9 || c = 10 || c = 11 || c = 12 || c = 13 ||
  c = 28 || c = 29 || c = 30 || c = 31 || c = 133 || c = 160 ||
  c = 5760 || (8192 ≤ c && c ≤ 8202) || c = 8232 || c = 8233 ||
  c = 8239 || c = 8287 || c = 12288

/-- The characters matched by the literal class [ \t]. -/
def isSpaceTab (c : Nat) : Bool := c = 32 || c = 9

/-- Line boundaries recognised by Python str.splitlines. -/
def isLineBreak (c : Nat) : Bool :=
  c = 10 || c = 11 || c = 12 || c = 13 || c = 28 || c = 29 || c = 30 ||
  c = 133 || c = 8232 || c = 8233

/-- ASCII decimal digit (the re class \d on this report's repertoire). -/
def isDigit (c : Nat) : Bool := 48 ≤ c && c ≤ 57

/-- ASCII letter (the class [a-zA-Z] used for RTF control words). -/
def isAsciiLetter (c : Nat) : Bool := (65 ≤ c && c ≤ 90) || (97 ≤ c && c ≤ 122)

/-- Hexadecimal digit (the class [0-9a-fA-F]). -/
def isHexDigit (c : Nat) : Bool :=
  isDigit c || (97 ≤ c && c ≤ 102) || (65 ≤ c && c ≤ 70)

/-- Value of a hexadecimal digit codepoint. -/
def hexVal (c : Nat) : Nat :=
  if isDigit c then c - 48
  else if 97 ≤ c && c ≤ 102 then c - 87
  else c - 55

/-- Word characters for the re class \w (word boundary \b).  Modelled exactly
on the Latin-1 repertoire; codepoints at 256 and above, which in this report
only ever come from letters, are treated as word characters. -/
def isWordCp (c : Nat) : Bool :=
  isDigit c || isAsciiLetter c || c = 95 || c = 170 || c = 181 || c = 186 ||
  (192 ≤ c && c ≤ 214) || (216 ≤ c && c ≤ 246) || (248 ≤ c && c ≤ 255) ||
  256 ≤ c

/-- Lower-casing used by re.IGNORECASE, covering ASCII and Latin-1 capitals
(the alphabet of the header/footer pattern). -/
def toLowerCp (c : Nat) : Nat :=
  if 65 ≤ c && c ≤ 90 then c + 32
  else if 192 ≤ c && c ≤ 222 && c ≠ 215 then c + 32
  else c

/-- Numeric value of a list of ASCII digit codepoints. -/
def digitsToNat (ds : Line) : Nat := ds.foldl (fun a d => a * 10 + (d - 48)) 0

/-- Python str.strip: drop whitespace from both ends. -/
def pyStrip (l : Line) : Line :=
  ((l.dropWhile isSpaceCp).reverse.dropWhile isSpaceCp).reverse

/-- Python str.splitlines, accumulator-style; a CR LF pair is one boundary. -/
def splitlinesAux : Line → Line → List Line
  | acc, [] => if acc = [] then [] else [acc.reverse]
  | acc, 13 :: 10 :: rest => acc.reverse :: splitlinesAux [] rest
  | acc, c :: rest =>
      if isLineBreak c then acc.reverse :: splitlinesAux [] rest
      else splitlinesAux (c :: acc) rest

/-- Python str.splitlines. -/
def pySplitlines (l : Line) : List Line := splitlinesAux [] l

/-- Boolean prefix test: pat is an initial segment of the second list. -/
def prefixOf : List Nat → List Nat → Bool
  | [], _ => true
  | _ :: _, [] => false
  | a :: p, b :: l => a = b && prefixOf p l

/-- Boolean substring test: pat occurs contiguously in the second list
(Python's in operator on strings, for a fixed pattern). -/
def containsSub (pat : List Nat) : List Nat → Bool
  | [] => prefixOf pat []
  | c :: rest => prefixOf pat (c :: rest) || containsSub pat rest

/-- Match a literal token at the current position, returning the rest. -/
def litAt (pat l : List Nat) : Option (List Nat) :=
  if prefixOf pat l then some (l.drop pat.length) else none

/-- Match one-or-more characters of a class at the current position (a
greedy plus over a character class), returning the rest. -/
def plusAt (p : Nat → Bool) (l : List Nat) : Option (List Nat) :=
  match l with
  | c :: _ => if p c then some (l.dropWhile p) else none
  | [] => none

/- ===================== RTF Decoder (rtf_to_text) ===================== -/

/-- Parse the tail of a numeric unicode escape: an optional minus sign, a
greedy digit run, and an optional placeholder question mark, as in the
pattern \ u(-?[0-9]+)[?]? applied after the backslash-u prefix. -/
def uniNum (l : List Nat) : Option (Int × List Nat) :=
  let neg : Bool := match l with | 45 :: _ => true | _ => false
  let l1 := match l with | 45 :: r => r | r => r
  let ds := l1.takeWhile isDigit
  if ds = [] then none
  else
    let r2 := l1.dropWhile isDigit
    let r3 := match r2 with | 63 :: r => r | r => r
    let v : Int := (digitsToNat ds : Int)
    some ((if neg then -v else v), r3)

/-- The 16-bit wraparound of uni_sub: a negative codepoint is shifted by
65536. -/
def uniShift (n : Int) : Int := if n < 0 then n + 65536 else n

/-- Replacement for one numeric unicode escape (uni_sub in the source): the
shifted codepoint, or a single space when chr cannot render it (outside
0..0x10FFFF). -/
def uniChar (n : Int) : List Nat :=
  if 0 ≤ uniShift n && uniShift n ≤ 1114111 then [(uniShift n).toNat] else [32]

/-- Substitution pass for numeric unicode escapes, fueled by input length. -/
def uniPassF : Nat → List Nat → List Nat
  | 0, l => l
  | fuel + 1, l =>
    match l with
    | 92 :: 117 :: rest =>
        match uniNum rest with
        | some (n, rest') => uniChar n ++ uniPassF fuel rest'
        | none => 92 :: 117 :: uniPassF fuel rest
    | c :: rest => c :: uniPassF fuel rest
    | [] => []

/-- First substitution pass of rtf_to_text: numeric unicode escapes. -/
def uniPass (l : List Nat) : List Nat := uniPassF l.length l

/-- Replacement for one two-hex-digit byte escape (hex_sub in the source):
the byte decoded by Latin-1 with undecodable bytes ignored.  Latin-1 maps
every byte value below 256 to the same codepoint. -/
def hex_sub (b : Nat) : List Nat := if b < 256 then [b] else []

/-- Substitution pass for byte escapes: backslash, apostrophe, two hex
digits.  On a failed match the scan advances one character, and a new match
can only ever start at a backslash. -/
def hexPass : List Nat → List Nat
  | 92 :: 39 :: c1 :: c2 :: rest =>
      if isHexDigit c1 && isHexDigit c2 then
        hex_sub (hexVal c1 * 16 + hexVal c2) ++ hexPass rest
      else 92 :: 39 :: hexPass (c1 :: c2 :: rest)
  | c :: rest => c :: hexPass rest
  | [] => []

/-- Control word backslash-p-a-r with an optional trailing d, to newline. -/
def parPass : List Nat → List Nat
  | 92 :: 112 :: 97 :: 114 :: 100 :: rest => 10 :: parPass rest
  | 92 :: 112 :: 97 :: 114 :: rest => 10 :: parPass rest
  | c :: rest => c :: parPass rest
  | [] => []

/-- Control word backslash-l-i-n-e to newline. -/
def linePass : List Nat → List Nat
  | 92 :: 108 :: 105 :: 110 :: 101 :: rest => 10 :: linePass rest
  | c :: rest => c :: linePass rest
  | [] => []

/-- Control word backslash-c-e-l-l to newline. -/
def cellPass : List Nat → List Nat
  | 92 :: 99 :: 101 :: 108 :: 108 :: rest => 10 :: cellPass rest
  | c :: rest => c :: cellPass rest
  | [] => []

/-- Control word backslash-r-o-w to newline. -/
def rowPass : List Nat → List Nat
  | 92 :: 114 :: 111 :: 119 :: rest => 10 :: rowPass rest
  | c :: rest => c :: rowPass rest
  | [] => []

/-- Control word backslash-t-a-b to four spaces. -/
def tabPass : List Nat → List Nat
  | 92 :: 116 :: 97 :: 98 :: rest => 32 :: 32 :: 32 :: 32 :: tabPass rest
  | c :: rest => c :: tabPass rest
  | [] => []

/-- Generic control words: a backslash, a greedy letter run, a greedy digit
run, and an optional single trailing space, replaced by one space. -/
def ctrlPassF : Nat → List Nat → List Nat
  | 0, l => l
  | _ + 1, [] => []
  | fuel + 1, 92 :: c :: rest =>
      if isAsciiLetter c then
        let r1 := rest.dropWhile isAsciiLetter
        let r2 := r1.dropWhile isDigit
        let r3 := match r2 with | 32 :: r => r | r => r
        32 :: ctrlPassF fuel r3
      else 92 :: ctrlPassF fuel (c :: rest)
  | fuel + 1, c :: rest => c :: ctrlPassF fuel rest

/-- Generic control word pass. -/
def ctrlPass (l : List Nat) : List Nat := ctrlPassF l.length l

/-- Brace grouping characters become spaces. -/
def braceToSpace (c : Nat) : Nat := if c = 123 || c = 125 then 32 else c

/-- Collapse a run of spaces and tabs to one space. -/
def wsCollapse : List Nat → List Nat
  | [] => []
  | [c] => if isSpaceTab c then [32] else [c]
  | c1 :: c2 :: rest =>
      if isSpaceTab c1 then
        if isSpaceTab c2 then wsCollapse (c2 :: rest)
        else 32 :: c2 :: wsCollapse rest
      else c1 :: wsCollapse (c2 :: rest)

/-- Delete spaces and tabs directly after a newline, fueled. -/
def stripAfterNlF : Nat → List Nat → List Nat
  | 0, l => l
  | _ + 1, [] => []
  | fuel + 1, 10 :: rest =>
      match rest with
      | c :: _ =>
          if isSpaceTab c then 10 :: stripAfterNlF fuel (rest.dropWhile isSpaceTab)
          else 10 :: stripAfterNlF fuel rest
      | [] => [10]
  | fuel + 1, c :: rest => c :: stripAfterNlF fuel rest

/-- Pass deleting horizontal whitespace after newlines. -/
def stripAfterNl (l : List Nat) : List Nat := stripAfterNlF l.length l

/-- Delete spaces and tabs directly before a newline, fueled.  A run of
spaces not followed by a newline is emitted unchanged; no match can start
inside such a run. -/
def stripBeforeNlF : Nat → List Nat → List Nat
  | 0, l => l
  | _ + 1, [] => []
  | fuel + 1, c :: rest =>
      if isSpaceTab c then
        let run := (c :: rest).takeWhile isSpaceTab
        let tl := (c :: rest).dropWhile isSpaceTab
        match tl with
        | 10 :: r2 => 10 :: stripBeforeNlF fuel r2
        | _ => run ++ stripBeforeNlF fuel tl
      else c :: stripBeforeNlF fuel rest

/-- Pass deleting horizontal whitespace before newlines. -/
def stripBeforeNl (l : List Nat) : List Nat := stripBeforeNlF l.length l

/-- Collapse a run of two or more newlines to one newline. -/
def collapseNl : List Nat → List Nat
  | [] => []
  | [c] => [c]
  | c1 :: c2 :: rest =>
      if c1 = 10 && c2 = 10 then collapseNl (c2 :: rest)
      else c1 :: collapseNl (c2 :: rest)

/-- rtf_to_text from the source: the substitution passes applied in the
source's order. -/
def rtf_to_text (l : List Nat) : List Nat :=
  collapseNl (stripBeforeNl (stripAfterNl (wsCollapse
    ((ctrlPass (tabPass (rowPass (cellPass (linePass (parPass
      (hexPass (uniPass l)))))))).map braceToSpace))))

/-- Latin-1 text decoding of raw bytes with errors ignored: every byte value
below 256 maps to the codepoint of the same value, anything else (not a
byte) would be dropped. -/
def latin1Decode (bs : List Nat) : List Nat := bs.filter (fun b => b < 256)

/-- The decoded line sequence of a document: decode bytes, run rtf_to_text,
split into lines, strip each line, and keep the non-empty ones (the line
comprehension in process_rtf_file). -/
def processLines (content : List Nat) : List Line :=
  ((pySplitlines (rtf_to_text (latin1Decode content))).map pyStrip).filter
    (fun l => !l.isEmpty)

/- ===================== Page Splitter (split_pages) ===================== -/

/-- Match, at the current position, the footer pattern: the first token,
one-or-more whitespace, a digit run, whitespace, the second token,
whitespace, a digit run.  All repetition here is over disjoint character
classes, so greedy matching is deterministic. -/
def sideMatchAt (tok1 tok2 l : List Nat) : Bool :=
  (do
    let r1 ← litAt tok1 l
    let r2 ← plusAt isSpaceCp r1
    let r3 ← plusAt isDigit r2
    let r4 ← plusAt isSpaceCp r3
    let r5 ← litAt tok2 r4
    let r6 ← plusAt isSpaceCp r5
    let _ ← plusAt isDigit r6
    pure ()).isSome

/-- Search a line for the footer pattern with the given case of tokens. -/
def sideSearchWith (tok1 tok2 : List Nat) : List Nat → Bool
  | [] => false
  | c :: rest => sideMatchAt tok1 tok2 (c :: rest) || sideSearchWith tok1 tok2 rest

/-- The case-sensitive footer search used by split_pages. -/
def sideSearch (l : Line) : Bool := sideSearchWith (cp "Side") (cp "af") l

/-- Footer search over an already lower-cased line, for the case-insensitive
header/footer pattern. -/
def sideSearchLower (l : List Nat) : Bool := sideSearchWith (cp "side") (cp "af") l

/-- split_pages loop: append each line to the current buffer and close the
buffer after a line containing the footer text. -/
def split_pages_aux : List Line → List Line → List (List Line)
  | [], current => if current = [] then [] else [current]
  | ln :: rest, current =>
      if sideSearch ln then (current ++ [ln]) :: split_pages_aux rest []
      else split_pages_aux rest (current ++ [ln])

/-- split_pages from the source. -/
def split_pages (lines : List Line) : List (List Line) := split_pages_aux lines []

/- ============== Header/footer noise pattern (HEADER_FOOTER_PAT) ============== -/

/-- The literal alternatives of HEADER_FOOTER_PAT, lower-cased. -/
def hfLits : List (List Nat) :=
  [cp "hasselager fvt", cp "tur start", cp "trip", cp "pause", cp "læsseport",
   cp "hostrute", cp "vognnummer", cp "åbne - lukke", cp "starttid",
   cp "hjemkomsttid", cp "sluttid", cp "routedate", cp "udskrevet:"]

/-- Case-insensitive search for HEADER_FOOTER_PAT: any literal alternative,
or the footer pattern, occurring in the lower-cased line. -/
def headerFooterSearch (s : Line) : Bool :=
  let low := s.map toLowerCp
  hfLits.any (fun p => containsSub p low) || sideSearchLower low

/- ===================== Metadata Extractor (find_meta) ===================== -/

/-- Route-level metadata of one page: the five optional fields. -/
structure RouteMeta where
  rutenummer : Option Line
  portnummer : Option Line
  starttid : Option Line
  sluttid : Option Line
  afregningstid : Option Line
deriving DecidableEq

/-- Match, at the current position, a label literal, optional whitespace and
a greedy digit run; the captured group is the digit run. -/
def numAfterAt (label l : List Nat) : Option Line := do
  let r1 ← litAt label l
  let r2 := r1.dropWhile isSpaceCp
  let _ ← plusAt isDigit r2
  pure (r2.takeWhile isDigit)

/-- Leftmost search for a label followed by a number. -/
def searchNum (label : List Nat) : List Nat → Option Line
  | [] => none
  | c :: rest =>
      match numAfterAt label (c :: rest) with
      | some v => some v
      | none => searchNum label rest

/-- Match a time token of shape [0-2]?[0-9]:[0-9][0-9] at the current
position; the two branches of the optional leading digit are mutually
exclusive, so the greedy preference is deterministic. -/
def timeTok : List Nat → Option Line
  | a :: b :: c :: d :: e :: _ =>
      if (a = 48 || a = 49 || a = 50) && isDigit b && c = 58 && isDigit d && isDigit e then
        some [a, b, c, d, e]
      else if isDigit a && b = 58 && isDigit c && isDigit d then some [a, b, c, d]
      else none
  | [a, b, c, d] =>
      if isDigit a && b = 58 && isDigit c && isDigit d then some [a, b, c, d] else none
  | _ => none

/-- Match, at the current position, a label literal, optional whitespace and
a time token. -/
def timeAfterAt (label l : List Nat) : Option Line := do
  let r1 ← litAt label l
  timeTok (r1.dropWhile isSpaceCp)

/-- Leftmost search for a label followed by a time. -/
def searchTime (label : List Nat) : List Nat → Option Line
  | [] => none
  | c :: rest =>
      match timeAfterAt label (c :: rest) with
      | some v => some v
      | none => searchTime label rest

/-- One field update of the find_meta loop: the assignment pattern
m.group(1) if m else previous. -/
def upd1 (m : Line → Option Line) (cur : Option Line) (ln : Line) : Option Line :=
  match m ln with
  | some v => some v
  | none => cur

/-- One line of the find_meta loop: each field is overwritten on a match and
kept on a non-match. -/
def metaStep (acc : RouteMeta) (ln : Line) : RouteMeta :=
  { rutenummer := upd1 (searchNum (cp "HOSTRUTE:")) acc.rutenummer ln
    portnummer := upd1 (searchNum (cp "LÆSSEPORT:")) acc.portnummer ln
    starttid := upd1 (searchTime (cp "STARTTID:")) acc.starttid ln
    sluttid := upd1 (searchTime (cp "SLUTTID:")) acc.sluttid ln
    afregningstid := upd1 (searchNum (cp "AFREGNINGSTID:")) acc.afregningstid ln }

/-- find_meta from the source: scan the page's lines in order. -/
def find_meta (page_lines : List Line) : RouteMeta :=
  page_lines.foldl metaStep ⟨none, none, none, none, none⟩

/- ============== Address Resolver (find_street_and_post) ============== -/

/-- Search for a bare four-digit token (the pattern \b[0-9]{4}\b): four
digits with a word boundary on each side.  The scan carries whether the
previous character was a word character. -/
def bare4From (prevWord : Bool) : List Nat → Bool
  | [] => false
  | c :: rest =>
      (!prevWord &&
        (match c :: rest with
         | d1 :: d2 :: d3 :: d4 :: after =>
             isDigit d1 && isDigit d2 && isDigit d3 && isDigit d4 &&
             (match after with | [] => true | a :: _ => !isWordCp a)
         | _ => false)) || bare4From (isWordCp c) rest

/-- Bare four-digit token search on a line. -/
def bare4Search (l : Line) : Bool := bare4From false l

/-- The lookahead window: the next depth lines after start_idx, fewer at the
end of the page. -/
def lookaheadLines (page_lines : List Line) (start_idx depth : Nat) : List Line :=
  (List.range depth).filterMap (fun k => page_lines.get? (start_idx + 1 + k))

/-- First street-search loop: skip empty lines, noise lines and lines with a
bare four-digit token; the first survivor, stripped, is the street. -/
def firstStreet : List Line → Option Line
  | [] => none
  | s :: rest =>
      if s.isEmpty || headerFooterSearch s then firstStreet rest
      else if bare4Search s then firstStreet rest
      else some (pyStrip s)

/-- Match whitespace-plus then a non-empty remainder reaching the end of the
line (the tail \s+(.+)$ of the postal pattern).  When the remainder after
the greedy whitespace run is empty, the engine gives one whitespace
character back to the dot-plus group.  Lines hold no newline characters, so
the dot class is unrestricted here. -/
def spacesThenRest (rest : List Nat) : Option (List Nat) :=
  match rest with
  | c :: _ =>
      if isSpaceCp c then
        let tl := rest.dropWhile isSpaceCp
        if tl.isEmpty then
          if 2 ≤ rest.length then some (rest.drop (rest.length - 1)) else none
        else some tl
      else none
  | [] => none

/-- Match, at the current position, four digits then whitespace then a
remainder: the postal-code pattern ([0-9]{4})\s+(.+)$. -/
def postAt : List Nat → Option (Line × Line)
  | d1 :: d2 :: d3 :: d4 :: rest =>
      if isDigit d1 && isDigit d2 && isDigit d3 && isDigit d4 then
        (spacesThenRest rest).map (fun g2 => ([d1, d2, d3, d4], g2))
      else none
  | _ => none

/-- Leftmost search for the postal-code pattern on one line. -/
def postSearch : List Nat → Option (Line × Line)
  | [] => none
  | c :: rest =>
      match postAt (c :: rest) with
      | some r => some r
      | none => postSearch rest

/-- Second loop of the resolver: the first window line matching the
postal-code pattern gives the postal digits and the stripped city. -/
def firstPost : List Line → Option (Line × Line)
  | [] => none
  | s :: rest =>
      match postSearch s with
      | some (pn, g2) => some (pn, pyStrip g2)
      | none => firstPost rest

/-- Match, after a candidate first group, whitespace, exactly four digits,
whitespace and a remainder (the tail of the fallback pattern
(.+?)\s+([0-9]{4})\s+(.+)$). -/
def tryAfterG1 (l : List Nat) : Option (Line × List Nat) :=
  match l with
  | c :: _ =>
      if isSpaceCp c then
        match l.dropWhile isSpaceCp with
        | d1 :: d2 :: d3 :: d4 :: rest =>
            if isDigit d1 && isDigit d2 && isDigit d3 && isDigit d4 then
              (spacesThenRest rest).map (fun g3 => ([d1, d2, d3, d4], g3))
            else none
        | _ => none
      else none
  | [] => none

/-- Lazy growth of the fallback pattern's first group: the shortest prefix
whose remainder matches the rest of the pattern.  The dot class cannot cross
a newline. -/
def fbLoop (acc : List Nat) : List Nat → Option (Line × Line × List Nat)
  | [] => none
  | c :: rest =>
      if c = 10 then none
      else
        match tryAfterG1 rest with
        | some (pn, g3) => some (acc ++ [c], pn, g3)
        | none => fbLoop (acc ++ [c]) rest

/-- Search of the fallback pattern on one line.  A match anywhere implies a
match whose first group starts at the first character, since the lazy group
can absorb any newline-free prefix. -/
def fbSearch (s : Line) : Option (Line × Line × List Nat) := fbLoop [] s

/-- Third loop of the resolver: first non-noise window line matching the
fallback pattern, split into street, postal digits and city. -/
def firstFb : List Line → Option (Line × Line × Line)
  | [] => none
  | s :: rest =>
      match fbSearch s with
      | some (g1, pn, g3) =>
          if headerFooterSearch s then firstFb rest
          else some (pyStrip g1, pn, pyStrip g3)
      | none => firstFb rest

/-- find_street_and_post from the source. -/
def find_street_and_post (page_lines : List Line) (start_idx depth : Nat) :
    Option Line × Option Line × Option Line :=
  let lookahead := lookaheadLines page_lines start_idx depth
  let street := firstStreet lookahead
  let pb := firstPost lookahead
  match street with
  | some st => (some st, pb.map Prod.fst, pb.map Prod.snd)
  | none =>
      match firstFb lookahead with
      | some (g1, pn, g3) => (some g1, some pn, some g3)
      | none => (none, pb.map Prod.fst, pb.map Prod.snd)

/- ===================== Stop Line Matcher (stop_line_re) ===================== -/

/-- Match a time of shape [0-9]{1,2}:[0-9][0-9] at the current position.
The two branches of the one-or-two-digit hour are mutually exclusive (the
second character is either a digit or a colon), so greedy preference is
deterministic. -/
def pTime : List Nat → Option (Line × List Nat)
  | a :: b :: c :: d :: e :: rest =>
      if isDigit a && isDigit b && c = 58 && isDigit d && isDigit e then
        some ([a, b, c, d, e], rest)
      else if isDigit a && b = 58 && isDigit c && isDigit d then
        some ([a, b, c, d], e :: rest)
      else none
  | [a, b, c, d] =>
      if isDigit a && b = 58 && isDigit c && isDigit d then some ([a, b, c, d], [])
      else none
  | _ => none

/-- Match one numeric column: whitespace-plus then a greedy digit run.
Giving characters back from either run can never help the continuation
(which starts with whitespace or ends the group), so both runs are maximal. -/
def pCol (l : List Nat) : Option (List Nat) :=
  match l with
  | c :: _ =>
      if isSpaceCp c then
        match l.dropWhile isSpaceCp with
        | d :: r2 => if isDigit d then some ((d :: r2).dropWhile isDigit) else none
        | [] => none
      else none
  | [] => none

/-- Match the tail of the stop pattern: whitespace, the arrival time,
whitespace, the departure time, and a word boundary. -/
def pTail (l : List Nat) : Option (Line × Line) :=
  match l with
  | c :: _ =>
      if isSpaceCp c then
        match pTime (l.dropWhile isSpaceCp) with
        | some (ank, r1) =>
            match r1 with
            | c2 :: _ =>
                if isSpaceCp c2 then
                  match pTime (r1.dropWhile isSpaceCp) with
                  | some (afg, r2) =>
                      match r2 with
                      | [] => some (ank, afg)
                      | d :: _ => if isWordCp d then none else some (ank, afg)
                  | none => none
                else none
            | [] => none
        | none => none
      else none
  | [] => none

/-- The column group (\s+[0-9]+){1,8} followed by the tail.  The greedy
counted repetition prefers more columns, backing off one at a time; at least
one column is required. -/
def colsThenTail : Nat → List Nat → Option (Line × Line)
  | 0, _ => none
  | fuel + 1, l =>
      match pCol l with
      | none => none
      | some l2 =>
          match colsThenTail fuel l2 with
          | some res => some res
          | none => pTail l2

/-- Match everything after the lazily grown name: whitespace, the first time
range with its hyphen, the column group and the tail. -/
def matchAfterName (l : List Nat) : Option (Line × Line) :=
  match l with
  | c :: _ =>
      if isSpaceCp c then
        match pTime (l.dropWhile isSpaceCp) with
        | some (_, r1) =>
            match r1.dropWhile isSpaceCp with
            | 45 :: r3 =>
                match pTime (r3.dropWhile isSpaceCp) with
                | some (_, r4) => colsThenTail 8 r4
                | none => none
            | _ => none
        | none => none
      else none
  | [] => none

/-- Lazy growth of the name group (.+?): the shortest non-empty name whose
remainder matches; the dot class cannot cross a newline. -/
def nameLoop (acc : List Nat) : List Nat → Option (Line × Line × Line)
  | [] => none
  | c :: rest =>
      if c = 10 then none
      else
        match matchAfterName rest with
        | some (ank, afg) => some (acc ++ [c], ank, afg)
        | none => nameLoop (acc ++ [c]) rest

/-- Backtracking of the greedy whitespace run between the identifier and the
name: the run starts maximal and gives characters back to the name one at a
time. -/
def tryNames : Nat → List Nat → Option (Line × Line × Line)
  | 0, _ => none
  | s + 1, rest =>
      match nameLoop [] (rest.drop (s + 1)) with
      | some r => some r
      | none => tryNames s rest

/-- stop_line_re.match from parse_page: a five-digit identifier anchored at
the start of the line, whitespace, the lazy name, a time range, one-to-eight
numeric columns, and the arrival and departure times.  Returns the captured
name, arrival and departure groups. -/
def stopMatch (l : Line) : Option (Line × Line × Line) :=
  match l with
  | d1 :: d2 :: d3 :: d4 :: d5 :: rest =>
      if isDigit d1 && isDigit d2 && isDigit d3 && isDigit d4 && isDigit d5 then
        let spn := (rest.takeWhile isSpaceCp).length
        if spn = 0 then none else tryNames spn rest
      else none
  | _ => none

/- ===================== Record Assembler (parse_page) ===================== -/

/-- Does the route-suffix pattern \s+[A]\s*[0-9]*$ match at the current
position: one-or-more whitespace, the letter A, optional whitespace,
optional digits, end of string. -/
def routeSuffixAt (l : List Nat) : Bool :=
  match l with
  | c :: _ =>
      isSpaceCp c &&
        (match l.dropWhile isSpaceCp with
         | 65 :: r2 => ((r2.dropWhile isSpaceCp).dropWhile isDigit).isEmpty
         | _ => false)
  | [] => false

/-- Remove the leftmost match of the route-suffix pattern (re.sub with an
end-anchored pattern deletes the tail from the leftmost matching start). -/
def strip_suffix : List Nat → List Nat
  | [] => []
  | c :: rest => if routeSuffixAt (c :: rest) then [] else c :: strip_suffix rest

/-- The depot marker text. -/
def depotLit : Line := cp "Hasselager"

/-- Python truthiness-guarded containment: x and marker in x. -/
def optHasDepot : Option Line → Bool
  | some s => containsSub depotLit s
  | none => false

/-- Exact rational division, written out on numerators and denominators so
that it reduces in the kernel; it agrees with field division on ℚ
(ratDiv_eq_div below). -/
def ratDiv (a b : ℚ) : ℚ := Rat.divInt (a.num * (b.den : ℤ)) ((a.den : ℤ) * b.num)

/-- Python round with ties to even, on an exact rational, computed on the
floor quotient and remainder of numerator by denominator. -/
def roundHalfEven (q : ℚ) : ℤ :=
  if 2 * (q.num - Int.fdiv q.num (q.den : ℤ) * (q.den : ℤ)) < (q.den : ℤ) then
    Int.fdiv q.num (q.den : ℤ)
  else if (q.den : ℤ) < 2 * (q.num - Int.fdiv q.num (q.den : ℤ) * (q.den : ℤ)) then
    Int.fdiv q.num (q.den : ℤ) + 1
  else if Int.fdiv q.num (q.den : ℤ) % 2 = 0 then Int.fdiv q.num (q.den : ℤ)
  else Int.fdiv q.num (q.den : ℤ) + 1

/-- round(x, 2): round x * 100 to an integer, divided by 100. -/
def round2 (q : ℚ) : ℚ :=
  Rat.divInt (roundHalfEven (Rat.divInt (q.num * 100) (q.den : ℤ))) 100

/-- Python float() on the digit strings produced by the metadata matcher;
anything else would raise and is modelled as none (the except branch). -/
def parseFloat? (s : Line) : Option ℚ :=
  if !s.isEmpty && s.all isDigit then some ((digitsToNat s : ℚ)) else none

/-- One output record (one row dict of parse_page). -/
structure Row where
  butiksnavn : Line
  adresse : Option Line
  postnr : Option Line
  byNavn : Option Line
  ankomst : Line
  rutenummer : Option Line
  portnummer : Option Line
  starttid : Option Line
  sluttid : Option Line
  afrTimer : Option ℚ
deriving DecidableEq

/-- The settlement-hours computation of parse_page: on a truthy settlement
minutes value, round(float(v) / 60, 2), with a failed parse giving none. -/
def afrHours (afregningstid : Option Line) : Option ℚ :=
  match afregningstid with
  | none => none
  | some s =>
      if s.isEmpty then none
      else
        match parseFloat? s with
        | some v => some (round2 (ratDiv v 60))
        | none => none

/-- The body of parse_page's loop for the line at index i: match the stop
pattern, resolve the address, drop depot rows, normalize the name, and build
the record. -/
def rowAt (meta : RouteMeta) (page_lines : List Line) (i : Nat) (ln : Line) :
    Option Row :=
  match stopMatch ln with
  | none => none
  | some (nm, ank, _) =>
      let name_raw := pyStrip nm
      let spb := find_street_and_post page_lines i 12
      let street := spb.1
      let postnr := spb.2.1
      let byv := spb.2.2
      if containsSub depotLit name_raw || optHasDepot street || optHasDepot byv then
        none
      else
        some { butiksnavn := pyStrip (strip_suffix name_raw)
               adresse := street
               postnr := postnr
               byNavn := byv
               ankomst := ank
               rutenummer := meta.rutenummer
               portnummer := meta.portnummer
               starttid := meta.starttid
               sluttid := meta.sluttid
               afrTimer := afrHours meta.afregningstid }

/-- parse_page from the source: metadata once, then the enumerated lines. -/
def parse_page (page_lines : List Line) : List Row :=
  let meta := find_meta page_lines
  page_lines.enum.filterMap (fun p => rowAt meta page_lines p.1 p.2)

/- ===================== Pipeline (process_rtf_file) ===================== -/

/-- process_rtf_file from the source, restricted to the core: decode, split
into lines and pages, parse every page, and return the flat record list with
its count. -/
def process_rtf_file (content : List Nat) : List Row × Nat :=
  let lines := processLines content
  let pages := split_pages lines
  let all_rows := (pages.map parse_page).flatten
  (all_rows, all_rows.length)

/- ===================== Supporting lemmas ===================== -/

theorem dropWhile_self (p : Nat → Bool) :
    ∀ l : List Nat, (l.dropWhile p).dropWhile p = l.dropWhile p
  | [] => rfl
  | c :: rest => by
      by_cases h : p c
      · simp [List.dropWhile_cons, h, dropWhile_self p rest]
      · simp [List.dropWhile_cons, h]

theorem dropWhile_cons_self (p : Nat → Bool) (c : Nat) (x : List Nat)
    (h : (c :: x).dropWhile p = c :: x) : p c = false := by
  by_cases hc : p c
  · exfalso
    rw [List.dropWhile_cons, if_pos hc] at h
    have hle : (x.dropWhile p).length ≤ x.length := (List.dropWhile_sublist p).length_le
    have h2 := congrArg List.length h
    simp at h2
    omega
  · simpa using hc

theorem dropWhile_of_app (p : Nat → Bool) (t u : List Nat)
    (h : (t ++ u).dropWhile p = t ++ u) : t.dropWhile p = t := by
  cases t with
  | nil => rfl
  | cons c t' =>
      have hc : p c = false := dropWhile_cons_self p c (t' ++ u) (by simpa using h)
      simp [List.dropWhile_cons, hc]

theorem pyStrip_split (l : Line) :
    l = l.takeWhile isSpaceCp ++ pyStrip l ++
        ((l.dropWhile isSpaceCp).reverse.takeWhile isSpaceCp).reverse := by
  conv_lhs => rw [← List.takeWhile_append_dropWhile isSpaceCp l]
  rw [List.append_assoc]
  congr 1
  conv_lhs => rw [← List.reverse_reverse (l.dropWhile isSpaceCp)]
  conv_lhs =>
    rw [← List.takeWhile_append_dropWhile isSpaceCp (l.dropWhile isSpaceCp).reverse]
  rw [List.reverse_append]
  rfl

theorem pyStrip_drop_eq (l : Line) : (pyStrip l).dropWhile isSpaceCp = pyStrip l := by
  have hA : (l.dropWhile isSpaceCp).dropWhile isSpaceCp = l.dropWhile isSpaceCp :=
    dropWhile_self isSpaceCp l
  have hdecomp : l.dropWhile isSpaceCp =
      pyStrip l ++ ((l.dropWhile isSpaceCp).reverse.takeWhile isSpaceCp).reverse := by
    conv_lhs => rw [← List.reverse_reverse (l.dropWhile isSpaceCp)]
    conv_lhs =>
      rw [← List.takeWhile_append_dropWhile isSpaceCp (l.dropWhile isSpaceCp).reverse]
    rw [List.reverse_append]
    rfl
  exact dropWhile_of_app isSpaceCp _ _ (by rw [← hdecomp]; exact hA)

theorem pyStrip_idem (l : Line) : pyStrip (pyStrip l) = pyStrip l := by
  have h1 : (pyStrip l).dropWhile isSpaceCp = pyStrip l := pyStrip_drop_eq l
  have h2 : (pyStrip l).reverse.dropWhile isSpaceCp = (pyStrip l).reverse := by
    unfold pyStrip
    rw [List.reverse_reverse]
    exact dropWhile_self isSpaceCp _
  show (((pyStrip l).dropWhile isSpaceCp).reverse.dropWhile isSpaceCp).reverse = pyStrip l
  rw [h1, h2, List.reverse_reverse]

theorem prefixOf_iff (p : List Nat) : ∀ l, prefixOf p l = true ↔ ∃ t, l = p ++ t := by
  induction p with
  | nil => intro l; simp [prefixOf]
  | cons a p ih =>
      intro l
      cases l with
      | nil =>
          simp [prefixOf]
      | cons b l' =>
          simp only [prefixOf, Bool.and_eq_true, decide_eq_true_eq, ih l']
          constructor
          · rintro ⟨rfl, t, rfl⟩; exact ⟨t, rfl⟩
          · rintro ⟨t, ht⟩
            injection ht with h1 h2
            exact ⟨h1.symm, t, h2⟩

theorem containsSub_iff (p : List Nat) :
    ∀ l, containsSub p l = true ↔ ∃ s t, l = s ++ p ++ t := by
  intro l
  induction l with
  | nil =>
      simp only [containsSub, prefixOf_iff]
      constructor
      · rintro ⟨t, ht⟩; exact ⟨[], t, by simpa using ht⟩
      · rintro ⟨s, t, h⟩
        have h0 : s = [] ∧ p = [] ∧ t = [] := by simpa using h.symm
        exact ⟨[], by simp [h0.2.1]⟩
  | cons c rest ih =>
      simp only [containsSub, Bool.or_eq_true, prefixOf_iff, ih]
      constructor
      · rintro (⟨t, ht⟩ | ⟨s, t, h⟩)
        · exact ⟨[], t, by simpa using ht⟩
        · exact ⟨c :: s, t, by simp [h]⟩
      · rintro ⟨s, t, h⟩
        cases s with
        | nil => exact Or.inl ⟨t, by simpa using h⟩
        | cons c' s' =>
            injection h with h1 h2
            exact Or.inr ⟨s', t, h2⟩

theorem containsSub_of_sub (pat x s t : List Nat) (h : containsSub pat x = true) :
    containsSub pat (s ++ x ++ t) = true := by
  rcases (containsSub_iff pat x).mp h with ⟨a, b, rfl⟩
  exact (containsSub_iff pat _).mpr ⟨s ++ a, b ++ t, by simp [List.append_assoc]⟩

theorem strip_suffix_split : ∀ l : List Nat, ∃ t, l = strip_suffix l ++ t
  | [] => ⟨[], rfl⟩
  | c :: rest => by
      by_cases h : routeSuffixAt (c :: rest)
      · exact ⟨c :: rest, by simp [strip_suffix, h]⟩
      · obtain ⟨t, ht⟩ := strip_suffix_split rest
        refine ⟨t, ?_⟩
        simp only [strip_suffix]
        rw [if_neg h, List.cons_append]
        exact congrArg (c :: ·) ht

theorem split_aux_flatten : ∀ (lines : List Line) (cur : List Line),
    (split_pages_aux lines cur).flatten = cur ++ lines
  | [], cur => by
      by_cases h : cur = [] <;> simp [split_pages_aux, h]
  | ln :: rest, cur => by
      by_cases h : sideSearch ln
      · simp [split_pages_aux, h, split_aux_flatten rest []]
      · simp [split_pages_aux, h, split_aux_flatten rest (cur ++ [ln])]

theorem split_aux_nonmatch : ∀ (xs : List Line) (cur : List Line),
    (∀ x ∈ xs, sideSearch x = false) → cur ++ xs ≠ [] →
    split_pages_aux xs cur = [cur ++ xs]
  | [], cur, _, hne => by
      have hc : cur ≠ [] := by simpa using hne
      simp [split_pages_aux, hc]
  | x :: xs, cur, hall, _ => by
      have hx : sideSearch x = false := hall x (List.mem_cons_self x xs)
      have hrest : ∀ y ∈ xs, sideSearch y = false := fun y hy =>
        hall y (List.mem_cons_of_mem x hy)
      have hne2 : (cur ++ [x]) ++ xs ≠ [] := by simp
      simp only [split_pages_aux, hx, Bool.false_eq_true, if_false]
      rw [split_aux_nonmatch xs (cur ++ [x]) hrest hne2]
      simp

theorem split_aux_close : ∀ (xs : List Line) (cur : List Line) (ln : Line) (ys : List Line),
    (∀ x ∈ xs, sideSearch x = false) → sideSearch ln = true →
    split_pages_aux (xs ++ ln :: ys) cur = (cur ++ xs ++ [ln]) :: split_pages_aux ys []
  | [], cur, ln, ys, _, hln => by
      simp [split_pages_aux, hln]
  | x :: xs, cur, ln, ys, hall, hln => by
      have hx : sideSearch x = false := hall x (List.mem_cons_self x xs)
      have hrest : ∀ y ∈ xs, sideSearch y = false := fun y hy =>
        hall y (List.mem_cons_of_mem x hy)
      simp only [List.cons_append, split_pages_aux, hx, Bool.false_eq_true, if_false,
        List.append_eq]
      rw [split_aux_close xs (cur ++ [x]) ln ys hrest hln]
      simp

theorem findSomeApp {β : Type} (m : Line → Option β) :
    ∀ l1 l2 : List Line, (l1 ++ l2).findSome? m =
      match l1.findSome? m with
      | some v => some v
      | none => l2.findSome? m
  | [], l2 => by simp [List.findSome?]
  | x :: l1, l2 => by
      simp only [List.cons_append, List.findSome?]
      cases m x <;> simp [findSomeApp m l1 l2]

theorem findSome_mem {β : Type} (m : Line → Option β) :
    ∀ (l : List Line) (v : β), l.findSome? m = some v → ∃ x ∈ l, m x = some v
  | [], v, h => by simp [List.findSome?] at h
  | x :: l, v, h => by
      rw [List.findSome?] at h
      cases hx : m x with
      | some w =>
          rw [hx] at h
          exact ⟨x, List.mem_cons_self x l, by rw [hx, h.symm.trans rfl]⟩
      | none =>
          rw [hx] at h
          obtain ⟨y, hy, hm⟩ := findSome_mem m l v h
          exact ⟨y, List.mem_cons_of_mem x hy, hm⟩

theorem foldl_upd1_lastwins (m : Line → Option Line) :
    ∀ (ls : List Line) (cur : Option Line),
    ls.foldl (fun c ln => upd1 m c ln) cur =
      match ls.reverse.findSome? m with
      | some v => some v
      | none => cur
  | [], cur => by simp [List.findSome?]
  | l :: ls, cur => by
      rw [List.foldl_cons, foldl_upd1_lastwins m ls (upd1 m cur l)]
      rw [List.reverse_cons, findSomeApp m ls.reverse [l]]
      cases hls : ls.reverse.findSome? m with
      | some v => simp
      | none =>
          simp only []
          cases hl : m l with
          | some w => simp [List.findSome?, hl, upd1]
          | none => simp [List.findSome?, hl, upd1]

theorem foldl_meta_field (proj : RouteMeta → Option Line) (m : Line → Option Line)
    (hstep : ∀ acc ln, proj (metaStep acc ln) = upd1 m (proj acc) ln) :
    ∀ (ls : List Line) (acc : RouteMeta),
    proj (ls.foldl metaStep acc) = ls.foldl (fun c ln => upd1 m c ln) (proj acc)
  | [], _ => rfl
  | l :: ls, acc => by
      rw [List.foldl_cons, List.foldl_cons, foldl_meta_field proj m hstep ls, hstep]

theorem find_meta_field (proj : RouteMeta → Option Line) (m : Line → Option Line)
    (hstep : ∀ acc ln, proj (metaStep acc ln) = upd1 m (proj acc) ln)
    (hinit : proj ⟨none, none, none, none, none⟩ = none)
    (page : List Line) :
    proj (find_meta page) = page.reverse.findSome? m := by
  unfold find_meta
  rw [foldl_meta_field proj m hstep, hinit, foldl_upd1_lastwins]
  cases page.reverse.findSome? m <;> simp

theorem enumFrom_filterMap {β : Type} (f : Nat → Line → Option β) :
    ∀ (n : Nat) (l : List Line),
    (List.enumFrom n l).filterMap (fun p => f p.1 p.2) =
      (List.range l.length).filterMap (fun i => (l.get? i).bind (fun x => f (n + i) x))
  | _, [] => rfl
  | n, x :: l => by
      rw [List.enumFrom_cons, List.filterMap_cons, List.length_cons,
        List.range_succ_eq_map, List.filterMap_cons]
      rw [List.filterMap_map]
      rw [enumFrom_filterMap f (n + 1) l]
      have hfun : (fun i => (l.get? i).bind fun x => f (n + 1 + i) x) =
          ((fun i => ((x :: l).get? i).bind fun y => f (n + i) y) ∘ (· + 1)) := by
        funext i
        simp only [Function.comp_apply, List.get?_cons_succ]
        have : n + 1 + i = n + (i + 1) := by omega
        rw [this]
      rw [hfun]
      simp only [List.get?_cons_zero, Option.bind_some, Nat.add_zero]
      rfl

theorem parse_page_range (page : List Line) :
    parse_page page =
      (List.range page.length).filterMap
        (fun i => (page.get? i).bind (fun ln => rowAt (find_meta page) page i ln)) := by
  show (List.enumFrom 0 page).filterMap _ = _
  rw [enumFrom_filterMap (fun i ln => rowAt (find_meta page) page i ln) 0 page]
  simp only [Nat.zero_add]

theorem rowAt_some (meta : RouteMeta) (page : List Line) (i : Nat) (ln : Line) (r : Row)
    (h : rowAt meta page i ln = some r) :
    ∃ nm ank afg, stopMatch ln = some (nm, ank, afg) ∧
      (containsSub depotLit (pyStrip nm) ||
        optHasDepot (find_street_and_post page i 12).1 ||
        optHasDepot (find_street_and_post page i 12).2.2) = false ∧
      r = { butiksnavn := pyStrip (strip_suffix (pyStrip nm))
            adresse := (find_street_and_post page i 12).1
            postnr := (find_street_and_post page i 12).2.1
            byNavn := (find_street_and_post page i 12).2.2
            ankomst := ank
            rutenummer := meta.rutenummer
            portnummer := meta.portnummer
            starttid := meta.starttid
            sluttid := meta.sluttid
            afrTimer := afrHours meta.afregningstid } := by
  unfold rowAt at h
  cases hm : stopMatch ln with
  | none => rw [hm] at h; exact absurd h (by simp)
  | some t =>
      obtain ⟨nm, ank, afg⟩ := t
      rw [hm] at h
      simp only at h
      by_cases hg : (containsSub depotLit (pyStrip nm) ||
          optHasDepot (find_street_and_post page i 12).1 ||
          optHasDepot (find_street_and_post page i 12).2.2) = true
      · rw [if_pos hg] at h
        exact absurd h (by simp)
      · rw [if_neg hg] at h
        refine ⟨nm, ank, afg, rfl, by simpa using hg, ?_⟩
        exact (Option.some.injEq _ _ ▸ h).symm

theorem parse_page_mem (page : List Line) (r : Row) (hr : r ∈ parse_page page) :
    ∃ i ln, (i, ln) ∈ page.enum ∧ rowAt (find_meta page) page i ln = some r := by
  obtain ⟨p, hp, hsome⟩ := List.mem_filterMap.mp hr
  exact ⟨p.1, p.2, hp, hsome⟩

theorem all_takeWhile_self (p : Nat → Bool) :
    ∀ l : List Nat, (l.takeWhile p).all p = true
  | [] => rfl
  | c :: rest => by
      by_cases h : p c
      · simp [List.takeWhile_cons, h, all_takeWhile_self p rest]
      · simp [List.takeWhile_cons, h]

theorem numAfterAt_digits (label l : List Nat) (s : Line)
    (h : numAfterAt label l = some s) : s ≠ [] ∧ s.all isDigit = true := by
  unfold numAfterAt at h
  cases hl : litAt label l with
  | none => rw [hl] at h; exact absurd h (by simp)
  | some r1 =>
      rw [hl] at h
      simp only [Option.bind_eq_bind, Option.some_bind] at h
      cases hp : plusAt isDigit (r1.dropWhile isSpaceCp) with
      | none => rw [hp] at h; exact absurd h (by simp)
      | some r3 =>
          rw [hp] at h
          have hs : s = (r1.dropWhile isSpaceCp).takeWhile isDigit := by
            simpa using h.symm
          subst hs
          unfold plusAt at hp
          cases hr2 : r1.dropWhile isSpaceCp with
          | nil => rw [hr2] at hp; exact absurd hp (by simp)
          | cons c r2' =>
              by_cases hc : isDigit c
              · constructor
                · simp [List.takeWhile_cons, hc]
                · exact all_takeWhile_self isDigit (c :: r2')
              · rw [hr2] at hp
                have hp2 : (if isDigit c = true then some ((c :: r2').dropWhile isDigit)
                    else none) = some r3 := hp
                rw [if_neg hc] at hp2
                exact absurd hp2 (by simp)

theorem searchNum_digits (label : List Nat) :
    ∀ (l : List Nat) (s : Line), searchNum label l = some s →
      s ≠ [] ∧ s.all isDigit = true
  | [], s, h => by simp [searchNum] at h
  | c :: rest, s, h => by
      rw [searchNum] at h
      cases ha : numAfterAt label (c :: rest) with
      | some v =>
          rw [ha] at h
          have hv : v = s := by simpa using h
          exact hv ▸ numAfterAt_digits label (c :: rest) v ha
      | none =>
          rw [ha] at h
          exact searchNum_digits label rest s h

theorem find_meta_afr_digits (page : List Line) (s : Line)
    (h : (find_meta page).afregningstid = some s) : s ≠ [] ∧ s.all isDigit = true := by
  rw [find_meta_field (fun m => m.afregningstid) (searchNum (cp "AFREGNINGSTID:"))
    (fun _ _ => rfl) rfl page] at h
  obtain ⟨x, _, hm⟩ := findSome_mem _ page.reverse s h
  exact searchNum_digits (cp "AFREGNINGSTID:") x s hm

theorem ratDiv_eq_div (a b : ℚ) : ratDiv a b = a / b := by
  unfold ratDiv
  rw [Rat.divInt_eq_div]
  push_cast
  conv_rhs => rw [← Rat.num_div_den a, ← Rat.num_div_den b]
  rw [div_div_eq_mul_div, div_mul_eq_mul_div, div_div]

/- ============== Claim-side formulation of the Address Resolver ============== -/

/-- A window line eligible as a street: non-empty, not header/footer noise,
and holding no bare four-digit token. -/
def streetEligibleB (s : Line) : Bool :=
  !(s.isEmpty || headerFooterSearch s) && !bare4Search s

theorem firstStreet_eq_find :
    ∀ la : List Line, firstStreet la = (la.find? streetEligibleB).map pyStrip
  | [] => rfl
  | s :: rest => by
      by_cases h1 : s.isEmpty || headerFooterSearch s
      · have he : streetEligibleB s = false := by simp [streetEligibleB, h1]
        simp [firstStreet, h1, List.find?_cons, he, firstStreet_eq_find rest]
      · by_cases h2 : bare4Search s
        · have he : streetEligibleB s = false := by simp [streetEligibleB, h2]
          simp [firstStreet, h1, h2, List.find?_cons, he, firstStreet_eq_find rest]
        · have he : streetEligibleB s = true := by
            simp only [streetEligibleB, Bool.and_eq_true, Bool.not_eq_true']
            exact ⟨by simpa using h1, by simpa using h2⟩
          simp [firstStreet, h1, h2, List.find?_cons, he]

theorem firstPost_eq_findSome :
    ∀ la : List Line, firstPost la =
      la.findSome? (fun s => (postSearch s).map (fun q => (q.1, pyStrip q.2)))
  | [] => rfl
  | s :: rest => by
      rw [List.findSome?]
      cases hp : postSearch s with
      | some q => simp [firstPost, hp]
      | none => simp [firstPost, hp, firstPost_eq_findSome rest]

theorem firstFb_eq_findSome :
    ∀ la : List Line, firstFb la =
      la.findSome? (fun s =>
        match fbSearch s with
        | some r =>
            if headerFooterSearch s then none
            else some (pyStrip r.1, r.2.1, pyStrip r.2.2)
        | none => none)
  | [] => rfl
  | s :: rest => by
      rw [List.findSome?]
      cases hf : fbSearch s with
      | some r =>
          by_cases hh : headerFooterSearch s
          · simp [firstFb, hf, hh, firstFb_eq_findSome rest]
          · simp [firstFb, hf, hh]
      | none => simp [firstFb, hf, firstFb_eq_findSome rest]

/-- The Address Resolver as the claim describes it, amended with the
fallback clause: the street is the first eligible window line; postal code
and city come from the first window line matching the postal pattern; when
no eligible street line exists, a fallback non-noise line of shape
text, four digits, text supplies all three fields, overriding the postal
and city. -/
def resolverSpec (page : List Line) (i : Nat) :
    Option Line × Option Line × Option Line :=
  let window := lookaheadLines page i 12
  let street := (window.find? streetEligibleB).map pyStrip
  let post := window.findSome? (fun s => (postSearch s).map (fun q => (q.1, pyStrip q.2)))
  let fb := window.findSome? (fun s =>
      match fbSearch s with
      | some r =>
          if headerFooterSearch s then none
          else some (pyStrip r.1, r.2.1, pyStrip r.2.2)
      | none => none)
  match street, fb with
  | some st, _ => (some st, post.map Prod.fst, post.map Prod.snd)
  | none, some (g1, pn, g3) => (some g1, some pn, some g3)
  | none, none => (none, post.map Prod.fst, post.map Prod.snd)

/-- Collapse adjacent equal values to one representative; a list of values
groups contiguously exactly when the collapsed list has no duplicates. -/
def collapseRuns : List (Option Line) → List (Option Line)
  | [] => []
  | [v] => [v]
  | v1 :: v2 :: rest =>
      if v1 = v2 then collapseRuns (v2 :: rest) else v1 :: collapseRuns (v2 :: rest)

/- ===================== Claim theorems ===================== -/

/-- C9: the Page Splitter partitions without loss or duplication: the
concatenation of the returned pages, in order, is exactly the input line
sequence. -/
theorem C9_split_pages_partition (lines : List Line) :
    (split_pages lines).flatten = lines := by
  simpa using split_aux_flatten lines []

/-- C7 (amended): the Page Splitter closes the current page at every line
matching the footer pattern case-sensitively (not case-insensitively as the
claim stated), a trailing buffer with content is emitted as a final page,
and the section-8 example yields the two stated pages. -/
theorem C7_split_footer_amended :
    (∀ (xs : List Line) (ln : Line) (ys : List Line),
        (∀ x ∈ xs, sideSearch x = false) → sideSearch ln = true →
        split_pages (xs ++ ln :: ys) = (xs ++ [ln]) :: split_pages ys) ∧
    (∀ xs : List Line, xs ≠ [] → (∀ x ∈ xs, sideSearch x = false) →
        split_pages xs = [xs]) ∧
    split_pages [cp "L1", cp "L2", cp "Side 1 af 2", cp "L3"] =
      [[cp "L1", cp "L2", cp "Side 1 af 2"], [cp "L3"]] := by
  refine ⟨?_, ?_, by decide⟩
  · intro xs ln ys hall hln
    unfold split_pages
    rw [split_aux_close xs [] ln ys hall hln]
    simp
  · intro xs hne hall
    unfold split_pages
    rw [split_aux_nonmatch xs [] hall (by simpa using hne)]
    simp

theorem C7_split_footer_witness :
    split_pages [cp "a", cp "Side 1 af 2", cp "b"] =
      ([cp "a"] ++ [cp "Side 1 af 2"]) :: split_pages [cp "b"] :=
  C7_split_footer_amended.1 [cp "a"] (cp "Side 1 af 2") [cp "b"] (by decide) (by decide)

theorem C7_split_footer_counterexample :
    split_pages [cp "a", cp "side 1 AF 2", cp "b"] =
      [[cp "a", cp "side 1 AF 2", cp "b"]] ∧
    split_pages [cp "a", cp "side 1 AF 2", cp "b"] ≠
      [[cp "a", cp "side 1 AF 2"], [cp "b"]] := by
  constructor
  · decide
  · decide

/-- C4: the Metadata Extractor is a fold over the page's lines in which each
of the five label patterns overwrites its field on a match and keeps the
previous value on a non-match; each resulting field is the last successful
match on the page, absent when no line matched. -/
theorem C4_find_meta_last_wins (page : List Line) :
    (find_meta page).rutenummer = page.reverse.findSome? (searchNum (cp "HOSTRUTE:")) ∧
    (find_meta page).portnummer = page.reverse.findSome? (searchNum (cp "LÆSSEPORT:")) ∧
    (find_meta page).starttid = page.reverse.findSome? (searchTime (cp "STARTTID:")) ∧
    (find_meta page).sluttid = page.reverse.findSome? (searchTime (cp "SLUTTID:")) ∧
    (find_meta page).afregningstid =
      page.reverse.findSome? (searchNum (cp "AFREGNINGSTID:")) :=
  ⟨find_meta_field (fun m => m.rutenummer) _ (fun _ _ => rfl) rfl page,
   find_meta_field (fun m => m.portnummer) _ (fun _ _ => rfl) rfl page,
   find_meta_field (fun m => m.starttid) _ (fun _ _ => rfl) rfl page,
   find_meta_field (fun m => m.sluttid) _ (fun _ _ => rfl) rfl page,
   find_meta_field (fun m => m.afregningstid) _ (fun _ _ => rfl) rfl page⟩

/-- C1: the Decoder pipeline is a total function of the input bytes (the
embedding returns a value for every input, mirroring that every malformed
escape is substituted rather than raised), every returned line is non-empty
and trimmed, and every numeric escape is replaced by exactly one character
(substitute space included). -/
theorem C1_decoder_trimmed_nonempty :
    (∀ (content : List Nat) (l : Line),
        l ∈ processLines content → l ≠ [] ∧ pyStrip l = l) ∧
    (∀ n : Int, (uniChar n).length = 1) := by
  constructor
  · intro content l hl
    obtain ⟨hmem, hne⟩ := List.mem_filter.mp hl
    obtain ⟨ln, _, hln⟩ := List.mem_map.mp hmem
    refine ⟨?_, ?_⟩
    · intro hcontr
      rw [hcontr] at hne
      simp at hne
    · rw [← hln]
      exact pyStrip_idem ln
  · intro n
    unfold uniChar
    split <;> rfl

theorem C1_decoder_witness :
    cp "hi" ∈ processLines (cp "hi") ∧ (cp "hi" ≠ [] ∧ pyStrip (cp "hi") = cp "hi") :=
  ⟨by decide, C1_decoder_trimmed_nonempty.1 (cp "hi") (cp "hi") (by decide)⟩

theorem hexVal_lt (c : Nat) (h : isHexDigit c = true) : hexVal c < 16 := by
  simp only [isHexDigit, isDigit, Bool.or_eq_true, Bool.and_eq_true,
    decide_eq_true_eq] at h
  unfold hexVal isDigit
  split_ifs with h1 h2
  · simp only [Bool.and_eq_true, decide_eq_true_eq] at h1
    omega
  · omega
  · simp only [Bool.and_eq_true, decide_eq_true_eq, not_and, not_le] at h1 h2
    rcases h with h | h | h <;> omega

/-- C10: every two-hex-digit byte escape is replaced by exactly one
character, the Latin-1 decoding of the byte; the empty-string branch of the
hex substitution is unreachable because Latin-1 maps all byte values. -/
theorem C10_hex_escape_one_char (c1 c2 : Nat) (rest : List Nat)
    (h1 : isHexDigit c1 = true) (h2 : isHexDigit c2 = true) :
    hexPass (92 :: 39 :: c1 :: c2 :: rest) =
      (hexVal c1 * 16 + hexVal c2) :: hexPass rest ∧
    hex_sub (hexVal c1 * 16 + hexVal c2) = [hexVal c1 * 16 + hexVal c2] := by
  have hb : hexVal c1 * 16 + hexVal c2 < 256 := by
    have := hexVal_lt c1 h1
    have := hexVal_lt c2 h2
    omega
  have hsub : hex_sub (hexVal c1 * 16 + hexVal c2) = [hexVal c1 * 16 + hexVal c2] := by
    unfold hex_sub
    rw [if_pos (by simpa using hb)]
  refine ⟨?_, hsub⟩
  rw [hexPass, if_pos (by simp [h1, h2]), hsub]
  rfl

theorem C10_hex_escape_witness :
    hexPass ((92 : Nat) :: 39 :: 52 :: 49 :: []) =
      (hexVal 52 * 16 + hexVal 49) :: hexPass [] ∧
    hex_sub (hexVal 52 * 16 + hexVal 49) = [hexVal 52 * 16 + hexVal 49] :=
  C10_hex_escape_one_char 52 49 [] (by decide) (by decide)

/-- C2 (amended): the final record list is the concatenation of per-page
record lists in page order, within a page records appear in increasing
stop-line index order, every record of a page carries that page's route
number (so per-page blocks are route-homogeneous), and the entry point
returns the list with its length.  Records sharing a route number need not
be contiguous across non-adjacent pages. -/
theorem C2_pipeline_order_amended :
    (∀ content : List Nat,
        process_rtf_file content =
          (((split_pages (processLines content)).map parse_page).flatten,
            ((split_pages (processLines content)).map parse_page).flatten.length)) ∧
    (∀ page : List Line, parse_page page =
        (List.range page.length).filterMap
          (fun i => (page.get? i).bind (fun ln => rowAt (find_meta page) page i ln))) ∧
    (∀ (page : List Line) (r : Row), r ∈ parse_page page →
        r.rutenummer = (find_meta page).rutenummer) := by
  refine ⟨fun content => rfl, parse_page_range, ?_⟩
  intro page r hr
  obtain ⟨i, ln, _, hsome⟩ := parse_page_mem page r hr
  obtain ⟨nm, ank, afg, _, _, hrrw⟩ := rowAt_some _ page i ln r hsome
  rw [hrrw]

/-- Concrete page and row values used by the witnesses. -/
def pageB : List Line := [cp "HOSTRUTE: 7", cp "12345 Butik A 10:00-11:00 5 10:30 10:45"]

def rowB : Row :=
  ⟨cp "Butik", none, none, none, cp "10:30", some (cp "7"), none, none, none, none⟩

theorem C2_pipeline_order_witness :
    rowB.rutenummer = (find_meta pageB).rutenummer :=
  C2_pipeline_order_amended.2.2 pageB rowB (by decide)

/-- The three-page document whose route numbers alternate 1, 2, 1. -/
def docC2 : List Nat :=
  cp ("HOSTRUTE: 1\n12345 Butik A 10:00-11:00 5 10:30 10:45\nSide 1 af 3\n" ++
      "HOSTRUTE: 2\n12345 Butik A 10:00-11:00 5 10:30 10:45\nSide 2 af 3\n" ++
      "HOSTRUTE: 1\n12345 Butik A 10:00-11:00 5 10:30 10:45")

theorem C2_contiguity_counterexample :
    (process_rtf_file docC2).1.map Row.rutenummer =
      [some (cp "1"), some (cp "2"), some (cp "1")] ∧
    ¬ (collapseRuns ((process_rtf_file docC2).1.map Row.rutenummer)).Nodup := by
  refine ⟨by decide, by decide⟩

/-- C3 (amended): the resolver's street is the first window line that is
non-empty, not noise and has no bare four-digit token; postal code and city
come from the first window line matching the postal pattern; when no street
survives, a non-noise fallback line of shape text, four digits, text
supplies all three fields, overriding postal code and city.  The section-8
example resolves as stated. -/
theorem C3_resolver_amended :
    (∀ (page : List Line) (i : Nat),
        find_street_and_post page i 12 = resolverSpec page i) ∧
    find_street_and_post [cp "stop", cp "Hovedgaden 10", cp "8000 Aarhus C"] 0 12 =
      (some (cp "Hovedgaden 10"), some (cp "8000"), some (cp "Aarhus C")) := by
  refine ⟨?_, by decide⟩
  intro page i
  simp only [find_street_and_post, resolverSpec]
  rw [firstStreet_eq_find, firstPost_eq_findSome, firstFb_eq_findSome]
  cases (lookaheadLines page i 12).find? streetEligibleB with
  | some st => rfl
  | none =>
      cases (lookaheadLines page i 12).findSome? (fun s =>
          match fbSearch s with
          | some r =>
              if headerFooterSearch s then none
              else some (pyStrip r.1, r.2.1, pyStrip r.2.2)
          | none => none) with
      | some t =>
          obtain ⟨g1, pn, g3⟩ := t
          rfl
      | none => rfl

theorem C3_resolver_counterexample :
    find_street_and_post [cp "stop", cp "TRIP 1234 X", cp "Street 5678 Town"] 0 12 =
      (some (cp "Street"), some (cp "5678"), some (cp "Town")) ∧
    firstStreet (lookaheadLines [cp "stop", cp "TRIP 1234 X", cp "Street 5678 Town"] 0 12) =
      none ∧
    firstPost (lookaheadLines [cp "stop", cp "TRIP 1234 X", cp "Street 5678 Town"] 0 12) =
      some (cp "1234", cp "X") := by
  refine ⟨by decide, by decide, by decide⟩

/-- C5 (amended): a record is excluded whenever the raw matched name, the
resolved street or the resolved city contains the depot marker
case-SENSITIVELY; every emitted record is free of the marker under the
case-sensitive containment test (the claim's case-insensitive test does not
hold). -/
theorem C5_depot_exclusion_amended (page : List Line) (r : Row)
    (hr : r ∈ parse_page page) :
    containsSub depotLit r.butiksnavn = false ∧
    (∀ s, r.adresse = some s → containsSub depotLit s = false) ∧
    (∀ s, r.byNavn = some s → containsSub depotLit s = false) := by
  obtain ⟨i, ln, _, hsome⟩ := parse_page_mem page r hr
  obtain ⟨nm, ank, afg, _, hguard, hrrw⟩ := rowAt_some _ page i ln r hsome
  rw [Bool.or_eq_false_iff, Bool.or_eq_false_iff] at hguard
  obtain ⟨⟨hname, hstreet⟩, hby⟩ := hguard
  subst hrrw
  refine ⟨?_, ?_, ?_⟩
  · show containsSub depotLit (pyStrip (strip_suffix (pyStrip nm))) = false
    cases hb : containsSub depotLit (pyStrip (strip_suffix (pyStrip nm))) with
    | false => rfl
    | true =>
        exfalso
        obtain ⟨t, ht⟩ := strip_suffix_split (pyStrip nm)
        have hdec := pyStrip_split (strip_suffix (pyStrip nm))
        have h2 : pyStrip nm =
            (strip_suffix (pyStrip nm)).takeWhile isSpaceCp ++
              pyStrip (strip_suffix (pyStrip nm)) ++
              (((strip_suffix (pyStrip nm)).dropWhile
                  isSpaceCp).reverse.takeWhile isSpaceCp).reverse ++ t := by
          conv_lhs => rw [ht]
          exact congrArg (· ++ t) hdec
        have h3 := containsSub_of_sub depotLit
          (pyStrip (strip_suffix (pyStrip nm)))
          ((strip_suffix (pyStrip nm)).takeWhile isSpaceCp)
          ((((strip_suffix (pyStrip nm)).dropWhile
              isSpaceCp).reverse.takeWhile isSpaceCp).reverse ++ t) hb
        rw [← List.append_assoc, ← h2] at h3
        rw [hname] at h3
        exact absurd h3 (by simp)
  · intro s hsv
    show containsSub depotLit s = false
    have : optHasDepot (some s) = false := by
      rw [← hsv]
      exact hstreet
    simpa [optHasDepot] using this
  · intro s hsv
    show containsSub depotLit s = false
    have : optHasDepot (some s) = false := by
      rw [← hsv]
      exact hby
    simpa [optHasDepot] using this

/-- Concrete single-stop page and its emitted row for the witnesses. -/
def pageA : List Line := [cp "12345 Butik A 10:00-11:00 5 10:30 10:45"]

def pageA2 : List Line := [cp "12345 Butik A2 10:00-11:00 5 10:30 10:45"]

def rowA : Row := ⟨cp "Butik", none, none, none, cp "10:30", none, none, none, none, none⟩

theorem C5_depot_exclusion_witness :
    containsSub depotLit rowA.butiksnavn = false ∧
    (∀ s, rowA.adresse = some s → containsSub depotLit s = false) ∧
    (∀ s, rowA.byNavn = some s → containsSub depotLit s = false) :=
  C5_depot_exclusion_amended pageA rowA (by decide)

theorem C5_depot_exclusion_counterexample :
    (parse_page [cp "12345 hasselager A 10:00-11:00 5 10:30 10:45"]).map Row.butiksnavn =
      [cp "hasselager"] ∧
    containsSub (depotLit.map toLowerCp) ((cp "hasselager").map toLowerCp) = true := by
  refine ⟨by decide, by decide⟩

/-- C6 (amended): the emitted store name is the raw matched name with a
trailing route-suffix token of the shape whitespace, the letter A
(specifically, not any letter), optional whitespace, optional digits
stripped from the end, then trimmed. -/
theorem C6_name_strip_amended (page : List Line) (r : Row) (hr : r ∈ parse_page page) :
    ∃ i ln nm ank afg, (i, ln) ∈ page.enum ∧ stopMatch ln = some (nm, ank, afg) ∧
      r.butiksnavn = pyStrip (strip_suffix (pyStrip nm)) ∧ r.ankomst = ank := by
  obtain ⟨i, ln, hmem, hsome⟩ := parse_page_mem page r hr
  obtain ⟨nm, ank, afg, hstop, _, hrrw⟩ := rowAt_some _ page i ln r hsome
  exact ⟨i, ln, nm, ank, afg, hmem, hstop, by rw [hrrw], by rw [hrrw]⟩

theorem C6_name_strip_witness :
    ∃ i ln nm ank afg, (i, ln) ∈ pageA2.enum ∧ stopMatch ln = some (nm, ank, afg) ∧
      rowA.butiksnavn = pyStrip (strip_suffix (pyStrip nm)) ∧ rowA.ankomst = ank :=
  C6_name_strip_amended pageA2 rowA (by decide)

theorem C6_name_strip_counterexample :
    (parse_page [cp "12345 Butik B2 10:00-11:00 5 10:30 10:45"]).map Row.butiksnavn =
      [cp "Butik B2"] ∧
    strip_suffix (cp "Butik A2") = cp "Butik" ∧
    strip_suffix (cp "Butik B2") = cp "Butik B2" := by
  refine ⟨by decide, by decide, by decide⟩

/-- C8: each emitted record's settlement-hours field is the page's
settlement minutes divided by 60 and rounded to two decimal places, and an
absent settlement-minutes value yields an absent field; the metadata value,
when present, is always a non-empty digit string, so the non-numeric except
branch never fires. -/
theorem C8_settlement_hours (page : List Line) (r : Row) (hr : r ∈ parse_page page) :
    ((find_meta page).afregningstid = none → r.afrTimer = none) ∧
    (∀ s, (find_meta page).afregningstid = some s →
        r.afrTimer = some (round2 ((digitsToNat s : ℚ) / 60))) := by
  obtain ⟨i, ln, _, hsome⟩ := parse_page_mem page r hr
  obtain ⟨nm, ank, afg, _, _, hrrw⟩ := rowAt_some _ page i ln r hsome
  have hafr : r.afrTimer = afrHours (find_meta page).afregningstid := by rw [hrrw]
  constructor
  · intro h0
    rw [hafr, h0]
    rfl
  · intro s hs
    obtain ⟨hne, hdig⟩ := find_meta_afr_digits page s hs
    have hie : s.isEmpty = false := by
      cases s with
      | nil => exact absurd rfl hne
      | cons a l => rfl
    rw [hafr, hs]
    show (if s.isEmpty = true then none
        else match parseFloat? s with
          | some v => some (round2 (ratDiv v 60))
          | none => none) = some (round2 ((digitsToNat s : ℚ) / 60))
    rw [hie]
    have hpf : parseFloat? s = some ((digitsToNat s : ℚ)) := by
      unfold parseFloat?
      rw [if_pos (by simp [hie, hdig])]
    rw [if_neg (by simp)]
    rw [hpf]
    show some (round2 (ratDiv ((digitsToNat s : ℚ)) 60)) =
      some (round2 ((digitsToNat s : ℚ) / 60))
    rw [ratDiv_eq_div]

/-- Page with a settlement-minutes line, and its emitted row, for the C8
witness. -/
def pageC8 : List Line :=
  [cp "AFREGNINGSTID: 90", cp "12345 Butik A 10:00-11:00 5 10:30 10:45"]

def rowC8 : Row :=
  ⟨cp "Butik", none, none, none, cp "10:30", none, none, none, none, some (mkRat 3 2)⟩

theorem C8_settlement_witness :
    (find_meta pageC8).afregningstid = some (cp "90") ∧
    rowC8.afrTimer = some (round2 ((digitsToNat (cp "90") : ℚ) / 60)) ∧
    rowC8.afrTimer = some (mkRat 3 2) :=
  ⟨by decide,
   (C8_settlement_hours pageC8 rowC8 (by decide)).2 (cp "90") (by decide),
   rfl⟩

end RutApp
